import Mathlib

/-!
Shallow embedding of the screen-time daemon (src/main.rs) for verifying the
specification's claims about the frame decision engine, the log writer's
append and in-place suffix-rewrite protocol, the ignore filter, the sampler
error path and the retention cleanup.

Conventions of the embedding:
* Rust u64 timestamps become Nat; the one u64 subtraction in the program
  (decide, main.rs line 196) panics on underflow in the source, so it is
  modelled by a checked subtraction returning Option.
* The day's log file is modelled as a List Char (its byte/character content;
  all characters written by the program are ASCII).  Appending at the end of
  the file models a write at the end-of-file cursor; the seek-back rewrite of
  UpdatePrevious is modelled with List.take / List.drop.
* Fallible operations (panicking unwraps, failing seeks) return Option; none
  is a panic/abort of the cycle.
* Rust's decimal formatting of a u64 (format of a timestamp) is modelled by
  the fuel-based function decimal below, producing the usual base-10 digit
  string, most significant digit first.
-/

namespace ScreenTime

/-- Field delimiter of log records, main.rs line 13: static DELIM = ";". -/
def DELIM : String := ";"

/-- Sampling interval in seconds, main.rs line 14: static TIMEOUT: u64 = 10. -/
def TIMEOUT : Nat := 10

/-- Activity frame, main.rs lines 25-30: an application name together with the
start and end timestamps (Unix seconds) of a contiguous focus period. -/
structure Frame where
  name : String
  start : Nat
  «end» : Nat
deriving DecidableEq

/-- Operations produced by the decision engine, main.rs lines 32-36. -/
inductive FrameOperation where
  | Prepare (frame : Frame)
  | WriteNew (frame : Frame)
  | UpdatePrevious (timestamp : Nat)
deriving DecidableEq

/-- In-memory loop state, main.rs lines 38-46, restricted to the fields the
claims are about: the open frame, the byte length of the most recently
written end-timestamp suffix, and the content of the day's log file.  The
date, file handles and the app-info side table are I/O plumbing outside the
modelled core. -/
structure CurrentState where
  last_frame : Option Frame
  last_write_length : Nat
  file : List Char
deriving DecidableEq

/-- State produced by CurrentState::new (main.rs lines 48-76) for a fresh
day file: no open frame, zero suffix length, empty file. -/
def initialState : CurrentState :=
  { last_frame := none, last_write_length := 0, file := [] }

/-- Checked u64 subtraction: Rust's a - b on u64 panics when b > a (debug
overflow check); modelled as none on underflow. -/
def checkedSub (a b : Nat) : Option Nat :=
  if b ≤ a then some (a - b) else none

/-- Decision engine, main.rs lines 180-212.  The source reads the current
time inside the function; here it is the explicit parameter timestamp.  The
sampling interval TIMEOUT is passed as the parameter timeout so that the
specification's scenarios (interval 3) can be stated; the daemon itself runs
it at timeout = TIMEOUT. -/
def decide (timeout : Nat) (last_frame : Option Frame) (name : String)
    (timestamp : Nat) : Option FrameOperation :=
  match last_frame with
  | some lf =>
    if lf.name = name then
      if lf.«end» = lf.start then
        some (.WriteNew { name := name, start := lf.start, «end» := timestamp })
      else
        match checkedSub timestamp lf.«end» with
        | none => none
        | some gap =>
          if gap < timeout * 5 then
            some (.UpdatePrevious timestamp)
          else
            some (.Prepare { name := name, start := timestamp, «end» := timestamp })
    else
      some (.Prepare { name := name, start := timestamp, «end» := timestamp })
  | none =>
    some (.Prepare { name := name, start := timestamp, «end» := timestamp })

/-- Character of a decimal digit d < 10 (ASCII 48 + d). -/
def digitChar (d : Nat) : Char := Char.ofNat (48 + d)

/-- Fuel-driven decimal rendering helper; with fuel > n it produces the
base-10 digit string of n, most significant first. -/
def decimalAux : Nat → Nat → List Char
  | 0, _ => []
  | fuel + 1, n =>
    if n < 10 then [digitChar n]
    else decimalAux fuel (n / 10) ++ [digitChar (n % 10)]

/-- Decimal digit string of n, modelling Rust's formatting of a u64. -/
def decimal (n : Nat) : List Char := decimalAux (n + 1) n

/-- Number of decimal digits of n, defined arithmetically. -/
def decimalDigitCount (n : Nat) : Nat :=
  if n = 0 then 1 else Nat.log 10 n + 1

/-- Bytes written for the end timestamp, main.rs line 173:
format of timestamp followed by a newline. -/
def time_str (timestamp : Nat) : List Char := decimal timestamp ++ ['\n']

/-- Leading part of a fresh record, main.rs line 143:
name, DELIM, start, DELIM. -/
def main_part (f : Frame) : List Char :=
  f.name.data ++ DELIM.data ++ decimal f.start ++ DELIM.data

/-- Application of a FrameOperation to the state, main.rs lines 140-166.
Prepare only replaces the open frame.  WriteNew appends the record's leading
part and then its end-timestamp suffix at the end of the file, recording the
suffix byte length (write_timestamp_and_flush, lines 172-178).  UpdatePrevious
unwraps the open frame (line 152; none models that unwrap panicking), seeks
back from the end of the file by exactly last_write_length (line 161; a seek
before the start of the file fails and its unwrap panics) and overwrites from
there with the new suffix, without truncating any bytes that lie beyond it.
Returns the frame stored back into last_frame together with the write, as the
new state. -/
def applyOp (s : CurrentState) (op : FrameOperation) : Option CurrentState :=
  match op with
  | .Prepare frame => some { s with last_frame := some frame }
  | .WriteNew frame =>
    some { last_frame := some frame,
           last_write_length := (time_str frame.«end»).length,
           file := s.file ++ main_part frame ++ time_str frame.«end» }
  | .UpdatePrevious timestamp =>
    match s.last_frame with
    | none => none
    | some lf =>
      let frame : Frame := { name := lf.name, start := lf.start, «end» := timestamp }
      if s.last_write_length ≤ s.file.length then
        let pos := s.file.length - s.last_write_length
        some { last_frame := some frame,
               last_write_length := (time_str timestamp).length,
               file := s.file.take pos ++ time_str timestamp
                        ++ s.file.drop (pos + (time_str timestamp).length) }
      else none

/-- Decision plus log write for one observed application name, main.rs
lines 138-168. -/
def stepCycle (timeout : Nat) (s : CurrentState) (name : String) (now : Nat) :
    Option CurrentState :=
  match decide timeout s.last_frame name now with
  | none => none
  | some op => applyOp s op

/-- Ignore filter, main.rs lines 214-229: an identifier of byte length 1, or
one of the fixed system applications, is ignored.  Rust's len() counts UTF-8
bytes, hence utf8ByteSize here. -/
def should_ignore_app (app_name : String) : Bool :=
  if app_name.utf8ByteSize = 1 then true
  else if ["Desktop", "unity-panel", "wingpanel"].any (fun n => n == app_name) then true
  else false

/-- Result of one sampling attempt: failure covers both an error from
get_active_win_id and one from get_app_name (main.rs lines 105-120), which the
loop handles identically. -/
inductive Sample where
  | failure
  | ok (name : String)
deriving DecidableEq

/-- One full loop cycle after the sleep and rollover check, main.rs lines
105-168: on sampler failure clear the open frame and continue; on an ignored
identifier clear the open frame and continue; otherwise decide and apply. -/
def runCycle (timeout : Nat) (s : CurrentState) (sample : Sample) (now : Nat) :
    Option CurrentState :=
  match sample with
  | .failure => some { s with last_frame := none }
  | .ok name =>
    if should_ignore_app name then some { s with last_frame := none }
    else stepCycle timeout s name now

/-- Repeated decide-and-write cycles over a list of (name, time) samples,
driving main.rs lines 138-168 once per sample. -/
def runSamples (timeout : Nat) (s : CurrentState) :
    List (String × Nat) → Option CurrentState
  | [] => some s
  | (name, t) :: rest =>
    match stepCycle timeout s name t with
    | none => none
    | some s' => runSamples timeout s' rest

/-- Repeated UpdatePrevious applications, as produced by consecutive cycles
that extend the same open frame (main.rs lines 151-165). -/
def applyUpdates (s : CurrentState) : List Nat → Option CurrentState
  | [] => some s
  | e :: es =>
    match applyOp s (.UpdatePrevious e) with
    | none => none
    | some s' => applyUpdates s' es

/-- Retention cleanup, main.rs lines 286-326, over the list of filenames in
the storage directory.  Dates are modelled as Int day numbers; the chrono
parse of a filename under the fixed date format (third-party library code) is
abstracted as the parameter parseDate.  Returns the list of files the routine
removes: a file whose name does not parse is skipped, a file whose parsed date
is before today minus 14 days is removed. -/
def clean_up_old_logs (parseDate : String → Option Int) (today : Int) :
    List String → List String
  | [] => []
  | f :: rest =>
    match parseDate f with
    | none => clean_up_old_logs parseDate today rest
    | some fileDate =>
      if fileDate < today - 14 then f :: clean_up_old_logs parseDate today rest
      else clean_up_old_logs parseDate today rest

/-! Helper lemmas about the decimal rendering. -/

/-- Given enough fuel, decimalAux does not depend on the exact fuel value. -/
theorem decimalAux_congr :
    ∀ (f₁ n : Nat), n < f₁ → ∀ f₂, n < f₂ → decimalAux f₁ n = decimalAux f₂ n := by
  intro f₁
  induction f₁ with
  | zero => intro n h; exact absurd h (Nat.not_lt_zero n)
  | succ f ih =>
    intro n h₁ f₂ h₂
    cases f₂ with
    | zero => exact absurd h₂ (Nat.not_lt_zero n)
    | succ g =>
      simp only [decimalAux]
      by_cases h10 : n < 10
      · simp [h10]
      · simp only [h10, if_false]
        have hrec : decimalAux f (n / 10) = decimalAux g (n / 10) :=
          ih (n / 10) (by omega) g (by omega)
        rw [hrec]

/-- Fuel-free unfolding equation of the decimal rendering. -/
theorem decimal_eq (n : Nat) :
    decimal n = if n < 10 then [digitChar n] else decimal (n / 10) ++ [digitChar (n % 10)] := by
  unfold decimal
  conv_lhs => rw [decimalAux]
  by_cases h : n < 10
  · simp [h]
  · simp only [h, if_false]
    rw [decimalAux_congr n (n / 10) (by omega) (n / 10 + 1) (Nat.lt_succ_self _)]

/-- The decimal digit string of a larger number is at least as long. -/
theorem decimal_length_mono (m n : Nat) (h : m ≤ n) :
    (decimal m).length ≤ (decimal n).length := by
  induction n using Nat.strong_induction_on generalizing m with
  | _ n ih =>
    rw [decimal_eq m, decimal_eq n]
    by_cases hn : n < 10
    · have hm : m < 10 := by omega
      simp [hm, hn]
    · by_cases hm : m < 10
      · simp only [hm, if_true, hn, if_false, List.length_append, List.length_cons,
          List.length_nil]
        omega
      · simp only [hm, hn, if_false, List.length_append, List.length_cons, List.length_nil]
        have := ih (n / 10) (by omega) (m / 10) (Nat.div_le_div_right h)
        omega

/-- The length of the decimal rendering is the arithmetic digit count. -/
theorem decimal_length_eq (n : Nat) : (decimal n).length = decimalDigitCount n := by
  induction n using Nat.strong_induction_on with
  | _ n ih =>
    rw [decimal_eq n]
    by_cases hn : n < 10
    · simp only [hn, if_true, List.length_cons, List.length_nil, decimalDigitCount]
      by_cases h0 : n = 0
      · simp [h0]
      · have : Nat.log 10 n = 0 := Nat.log_eq_zero_iff.mpr (Or.inl hn)
        simp [h0, this]
    · simp only [hn, if_false, List.length_append, List.length_cons, List.length_nil]
      have h10 : (10 : Nat) ≤ n := by omega
      have hq : n / 10 ≠ 0 := by
        have := Nat.div_pos h10 (by norm_num)
        omega
      have hrec := ih (n / 10) (by omega)
      rw [hrec]
      have hlogpos : 0 < Nat.log 10 n := Nat.log_pos (by norm_num) h10
      have hdiv : Nat.log 10 (n / 10) = Nat.log 10 n - 1 := Nat.log_div_base 10 n
      simp only [decimalDigitCount, hq, if_false]
      have hn0 : n ≠ 0 := by omega
      simp only [hn0, if_false]
      omega

/-- The end-timestamp suffix of a larger timestamp is at least as long. -/
theorem time_str_length_mono (m n : Nat) (h : m ≤ n) :
    (time_str m).length ≤ (time_str n).length := by
  simp only [time_str, List.length_append, List.length_cons, List.length_nil]
  have := decimal_length_mono m n h
  omega

/-- Invariant run of repeated in-place updates: starting from a state whose
file ends in the suffix of the open frame's end timestamp, a chain of strictly
increasing new end values rewrites only that suffix, leaving the record's
leading bytes untouched and no leftover trailing bytes. -/
theorem applyUpdates_run (pre : List Char) (nm : String) (st : Nat) :
    ∀ (es : List Nat) (e : Nat), List.Chain (· < ·) e es →
      applyUpdates ⟨some ⟨nm, st, e⟩, (time_str e).length, pre ++ time_str e⟩ es =
        some ⟨some ⟨nm, st, es.getLastD e⟩, (time_str (es.getLastD e)).length,
              pre ++ time_str (es.getLastD e)⟩ := by
  intro es
  induction es with
  | nil => intro e _; rfl
  | cons e' es ih =>
    intro e hch
    rw [List.chain_cons] at hch
    obtain ⟨h1, h2⟩ := hch
    have hlen : (time_str e).length ≤ (time_str e').length :=
      time_str_length_mono e e' (Nat.le_of_lt h1)
    have happ : applyOp ⟨some ⟨nm, st, e⟩, (time_str e).length, pre ++ time_str e⟩
        (.UpdatePrevious e') =
        some ⟨some ⟨nm, st, e'⟩, (time_str e').length, pre ++ time_str e'⟩ := by
      simp only [applyOp]
      have hle : (time_str e).length ≤ (pre ++ time_str e).length := by
        simp [List.length_append]
      simp only [hle, if_true]
      have hpos : (pre ++ time_str e).length - (time_str e).length = pre.length := by
        simp [List.length_append]
      rw [hpos]
      have htake : (pre ++ time_str e).take pre.length = pre := List.take_left pre _
      have hdrop : (pre ++ time_str e).drop (pre.length + (time_str e').length) = [] :=
        List.drop_eq_nil_of_le (by simp [List.length_append]; omega)
      rw [htake, hdrop, List.append_nil]
    show (match applyOp _ (.UpdatePrevious e') with
          | none => none
          | some s' => applyUpdates s' es) = _
    rw [happ]
    simp only [List.getLastD_cons]
    exact ih e' h2

/-! Claim theorems. -/

/-- C1: the decision function, at the daemon's interval of 10 seconds, returns
exactly Prepare of a single-sample frame (start = end = now) when there is no
previous frame or the names differ; WriteNew with the previous start and
end = now when the names match and the previous frame has end = start;
UpdatePrevious(now) when the names match, end differs from start and the gap
now - end is strictly below 50 = 5 * TIMEOUT; and Prepare of a brand-new
single-sample frame in the remaining case (names match, end differs from
start, gap at least 50).  The cases performing the subtraction carry the
no-underflow precondition end <= now; the underflowing input is claim C9. -/
theorem C1_decide_cases (lf : Frame) (nm : String) (now : Nat) :
    decide TIMEOUT none nm now = some (.Prepare ⟨nm, now, now⟩) ∧
    (lf.name ≠ nm → decide TIMEOUT (some lf) nm now = some (.Prepare ⟨nm, now, now⟩)) ∧
    (lf.name = nm → lf.«end» = lf.start →
      decide TIMEOUT (some lf) nm now = some (.WriteNew ⟨nm, lf.start, now⟩)) ∧
    (lf.name = nm → lf.«end» ≠ lf.start → lf.«end» ≤ now → now - lf.«end» < 50 →
      decide TIMEOUT (some lf) nm now = some (.UpdatePrevious now)) ∧
    (lf.name = nm → lf.«end» ≠ lf.start → lf.«end» ≤ now → 50 ≤ now - lf.«end» →
      decide TIMEOUT (some lf) nm now = some (.Prepare ⟨nm, now, now⟩)) := by
  refine ⟨rfl, ?_, ?_, ?_, ?_⟩
  · intro h; simp [decide, h]
  · intro h he; simp [decide, h, he]
  · intro h he hle hlt
    simp [decide, checkedSub, h, he, hle, TIMEOUT, hlt]
  · intro h he hle hge
    have : ¬ (now - lf.«end» < 50) := by omega
    simp [decide, checkedSub, h, he, hle, TIMEOUT, this]

/-- C1 witness: with an open confirmed frame for "A" ending at 3 and a new
sample of "A" at time 5 the engine extends the frame in place. -/
theorem C1_witness : decide TIMEOUT (some ⟨"A", 0, 3⟩) "A" 5 = some (.UpdatePrevious 5) :=
  (C1_decide_cases ⟨"A", 0, 3⟩ "A" 5).2.2.2.1 rfl (by decide) (by decide) (by decide)

/-- C2 counterexample: for samples "A","A" at times 0 and 60 with interval 3
(tolerance 15) the code does not emit two separate Prepare operations with an
empty log; the second sample hits the end = start branch before any gap check,
emits WriteNew, and the log ends up holding the single record A;0;60, whose
interval spans the 60-second gap. -/
theorem C2_gap_cex :
    runSamples 3 initialState [("A", 0), ("A", 60)] =
      some ⟨some ⟨"A", 0, 60⟩, 3, ("A;0;60\n").data⟩ ∧
    decide 3 (some ⟨"A", 0, 0⟩) "A" 60 = some (.WriteNew ⟨"A", 0, 60⟩) ∧
    ("A;0;60\n").data.count '\n' = 1 := by decide

/-- C2 amended: when a gap of at least 5 times the interval follows a
confirmed sample (previous frame with end differing from start), the engine
abandons the frame and emits Prepare, so the run splits and is not merged
across the gap; but when the gap follows a single unconfirmed sample the
engine emits WriteNew and commits a record spanning the gap: for samples
"A","A" at times 0 and 60 with interval 3 the log holds the single record
A;0;60. -/
theorem C2_amended_split (t : Nat) (lf : Frame) (nm : String) (now : Nat) :
    (lf.name = nm → lf.«end» ≠ lf.start → lf.«end» ≤ now → t * 5 ≤ now - lf.«end» →
      decide t (some lf) nm now = some (.Prepare ⟨nm, now, now⟩)) ∧
    runSamples 3 initialState [("A", 0), ("A", 60)] =
      some ⟨some ⟨"A", 0, 60⟩, 3, ("A;0;60\n").data⟩ := by
  constructor
  · intro h he hle hge
    have : ¬ (now - lf.«end» < t * 5) := by omega
    simp [decide, checkedSub, h, he, hle, this]
  · decide

/-- C2 amended witness: a confirmed frame for "A" ending at 6 followed by a
sample of "A" at time 60 (gap 54, tolerance 15) is abandoned in favour of a
fresh single-sample frame. -/
theorem C2_amended_witness :
    decide 3 (some ⟨"A", 0, 6⟩) "A" 60 = some (.Prepare ⟨"A", 60, 60⟩) :=
  (C2_amended_split 3 ⟨"A", 0, 6⟩ "A" 60).1 rfl (by decide) (by decide) (by decide)

/-- C3 counterexample: for samples "A","A","B" at times 0, 3, 10 with interval
3 the resulting log holds one record (one newline-terminated line), not two,
and contains no record for "B": the B frame is only prepared in memory. -/
theorem C3_two_records_cex :
    (runSamples 3 initialState [("A", 0), ("A", 3), ("B", 10)]).map
        (fun st => st.file.count '\n') = some 1 ∧
    (runSamples 3 initialState [("A", 0), ("A", 3), ("B", 10)]).map
        (fun st => st.file.count 'B') = some 0 := by decide

/-- C3 amended: for samples "A","A","B" at times 0, 3, 10 with interval 3 the
log holds exactly the one record A;0;3, written at time 3 on first
confirmation; the observation of "B" at time 10 only prepares an in-memory
frame with start 10 (it becomes last_frame) and writes nothing. -/
theorem C3_amended_log :
    runSamples 3 initialState [("A", 0), ("A", 3), ("B", 10)] =
      some ⟨some ⟨"B", 10, 10⟩, 2, ("A;0;3\n").data⟩ := by decide

/-- C4: after WriteNew appends a record, any chain of UpdatePrevious
applications with strictly increasing end values leaves the file with exactly
one record for that frame: the file is the old content followed by the
record's fixed leading bytes (name, start and delimiters) and the suffix of
the final end timestamp only, with no duplicate trailing data; consequently
the only byte range that changes across the updates is the trailing
end-timestamp field, and the record's byte length is the fixed leading length
plus the decimal digit count of the current end plus one. -/
theorem C4_update_in_place (s₀ : CurrentState) (f : Frame) (es : List Nat)
    (hch : List.Chain (· < ·) f.«end» es) :
    (applyOp s₀ (.WriteNew f)).bind (fun s₁ => applyUpdates s₁ es) =
      some ⟨some ⟨f.name, f.start, es.getLastD f.«end»⟩,
            (time_str (es.getLastD f.«end»)).length,
            (s₀.file ++ main_part f) ++ time_str (es.getLastD f.«end»)⟩ ∧
    ((s₀.file ++ main_part f) ++ time_str (es.getLastD f.«end»)).length =
      (s₀.file ++ main_part f).length + decimalDigitCount (es.getLastD f.«end») + 1 := by
  constructor
  · exact applyUpdates_run (s₀.file ++ main_part f) f.name f.start es f.«end» hch
  · have := decimal_length_eq (es.getLastD f.«end»)
    simp only [List.length_append, time_str, List.length_cons, List.length_nil]
    omega

/-- C4 witness: writing the record for frame ("A", 0, 3) and updating its end
twice, to 5 and then 12, leaves exactly the single record A;0;12 in the file
with suffix length 3. -/
theorem C4_witness :
    (applyOp initialState (.WriteNew ⟨"A", 0, 3⟩)).bind (fun s₁ => applyUpdates s₁ [5, 12]) =
      some ⟨some ⟨"A", 0, 12⟩, 3, ("A;0;12\n").data⟩ := by
  have h := C4_update_in_place initialState ⟨"A", 0, 3⟩ [5, 12]
    (.cons (by decide) (.cons (by decide) .nil))
  rw [h.1]
  decide

/-- C5: after a successful WriteNew or UpdatePrevious write, last_write_length
equals the byte length of the end-timestamp suffix just written, i.e. the
decimal digit count of the end value plus one for the newline; and the
UpdatePrevious write overwrites the file starting exactly last_write_length
bytes back from the end of the file, so that stored length is the sole
seek-back distance of the next in-place update. -/
theorem C5_lwl_invariant :
    (∀ (s : CurrentState) (f : Frame) (s' : CurrentState),
        applyOp s (.WriteNew f) = some s' →
        s'.last_write_length = decimalDigitCount f.«end» + 1) ∧
    (∀ (s : CurrentState) (ts : Nat) (s' : CurrentState),
        applyOp s (.UpdatePrevious ts) = some s' →
        s'.last_write_length = decimalDigitCount ts + 1 ∧
        s'.file = s.file.take (s.file.length - s.last_write_length) ++ time_str ts
                   ++ s.file.drop (s.file.length - s.last_write_length + (time_str ts).length)) := by
  constructor
  · intro s f s' h
    simp only [applyOp] at h
    injection h with h
    subst h
    simp [time_str, decimal_length_eq]
  · intro s ts s' h
    simp only [applyOp] at h
    cases hlf : s.last_frame with
    | none => rw [hlf] at h; simp at h
    | some lf =>
      rw [hlf] at h
      by_cases hle : s.last_write_length ≤ s.file.length
      · simp only [hle, if_true] at h
        injection h with h
        subst h
        refine ⟨by simp [time_str, decimal_length_eq], rfl⟩
      · simp only [hle, if_false] at h
        simp at h

/-- C5 witness: updating the record A;0;3 in place to end 7 yields suffix
length 2 = one digit plus the newline, and rewrites exactly the last two
bytes of the file. -/
theorem C5_witness :
    (⟨some ⟨"A", 0, 7⟩, 2, ("A;0;7\n").data⟩ : CurrentState).last_write_length
        = decimalDigitCount 7 + 1 ∧
    (⟨some ⟨"A", 0, 7⟩, 2, ("A;0;7\n").data⟩ : CurrentState).file =
      (⟨some ⟨"A", 0, 3⟩, 2, ("A;0;3\n").data⟩ : CurrentState).file.take
          ((⟨some ⟨"A", 0, 3⟩, 2, ("A;0;3\n").data⟩ : CurrentState).file.length - 2)
        ++ time_str 7
        ++ (⟨some ⟨"A", 0, 3⟩, 2, ("A;0;3\n").data⟩ : CurrentState).file.drop
          ((⟨some ⟨"A", 0, 3⟩, 2, ("A;0;3\n").data⟩ : CurrentState).file.length - 2
            + (time_str 7).length) :=
  C5_lwl_invariant.2 ⟨some ⟨"A", 0, 3⟩, 2, ("A;0;3\n").data⟩ 7
    ⟨some ⟨"A", 0, 7⟩, 2, ("A;0;7\n").data⟩ (by decide)

/-- C6 counterexample: the identifier consisting of the single character ß is
a one-character identifier, yet should_ignore_app returns false for it,
because the source tests the UTF-8 byte length (Rust len), which is 2 here;
so the filter does not return true for every single-character identifier. -/
theorem C6_single_char_cex :
    ("ß").length = 1 ∧ should_ignore_app "ß" = false := by decide

/-- C6 amended: should_ignore_app returns true exactly for identifiers whose
UTF-8 encoding is a single byte (single ASCII characters) and for the fixed
system applications Desktop, unity-panel and wingpanel; a cycle observing an
ignored identifier writes nothing to the log, keeps last_write_length, and
resets last_frame to none; and with last_frame none the next observed
application always starts a fresh frame, whatever its name. -/
theorem C6_amended_ignore :
    (∀ s : String, should_ignore_app s = true ↔
        (s.utf8ByteSize = 1 ∨ s = "Desktop" ∨ s = "unity-panel" ∨ s = "wingpanel")) ∧
    (∀ (t : Nat) (st : CurrentState) (nm : String) (now : Nat),
        should_ignore_app nm = true →
        runCycle t st (.ok nm) now = some ⟨none, st.last_write_length, st.file⟩) ∧
    (∀ (t : Nat) (nm : String) (now : Nat),
        decide t none nm now = some (.Prepare ⟨nm, now, now⟩)) := by
  refine ⟨?_, ?_, ?_⟩
  · intro s
    by_cases h1 : s.utf8ByteSize = 1
    · simp [should_ignore_app, h1]
    · simp only [should_ignore_app, h1, if_false]
      constructor
      · intro h
        by_cases h2 : ["Desktop", "unity-panel", "wingpanel"].any (fun n => n == s) = true
        · simp only [List.any_eq_true, List.mem_cons, List.not_mem_nil, or_false,
            beq_iff_eq] at h2
          rcases h2 with ⟨x, hx, hxs⟩
          subst hxs
          rcases hx with rfl | rfl | rfl
          · exact Or.inr (Or.inl rfl)
          · exact Or.inr (Or.inr (Or.inl rfl))
          · exact Or.inr (Or.inr (Or.inr rfl))
        · rw [if_neg h2] at h
          exact absurd h (by simp)
      · intro h
        rcases h with h | rfl | rfl | rfl
        · exact h.elim
        all_goals simp
  · intro t st nm now h
    simp [runCycle, h]
  · intro t nm now
    rfl

/-- C6 amended witness: the one-byte identifier "a" is ignored and the cycle
only clears the open frame of the fresh state. -/
theorem C6_amended_witness :
    runCycle 10 initialState (.ok "a") 5 = some ⟨none, 0, []⟩ :=
  C6_amended_ignore.2.1 10 initialState "a" 5 (by decide)

/-- C7: a sampler failure is non-fatal: the cycle sets last_frame to none and
leaves last_write_length and every byte of the log file unchanged, returning
normally so the loop continues. -/
theorem C7_sampler_failure (t : Nat) (s : CurrentState) (now : Nat) :
    runCycle t s .failure now = some ⟨none, s.last_write_length, s.file⟩ := rfl

/-- C8: the cleanup routine removes exactly the files of the storage directory
whose filename parses under the date format as a date strictly before today
minus 14 days; a file whose name does not parse is skipped, and the routine is
a total function of its inputs, so it never fails.  Dates are Int day numbers
and the third-party date parsing is the abstract parameter parseDate. -/
theorem C8_cleanup (parseDate : String → Option Int) (today : Int)
    (files : List String) (f : String) :
    f ∈ clean_up_old_logs parseDate today files ↔
      f ∈ files ∧ ∃ d, parseDate f = some d ∧ d < today - 14 := by
  induction files with
  | nil => simp [clean_up_old_logs]
  | cons g rest ih =>
    cases hg : parseDate g with
    | none =>
      simp only [clean_up_old_logs, hg]
      rw [ih, List.mem_cons]
      constructor
      · rintro ⟨hf, hd⟩
        exact ⟨Or.inr hf, hd⟩
      · rintro ⟨hf | hf, hd⟩
        · subst hf
          rcases hd with ⟨d, hd, _⟩
          rw [hg] at hd
          exact absurd hd (by simp)
        · exact ⟨hf, hd⟩
    | some d =>
      simp only [clean_up_old_logs, hg]
      by_cases hlt : d < today - 14
      · rw [if_pos hlt, List.mem_cons, ih, List.mem_cons]
        constructor
        · rintro (rfl | ⟨hf, hd⟩)
          · exact ⟨Or.inl rfl, d, hg, hlt⟩
          · exact ⟨Or.inr hf, hd⟩
        · rintro ⟨hf | hf, hd⟩
          · exact Or.inl hf
          · exact Or.inr ⟨hf, hd⟩
      · rw [if_neg hlt, ih, List.mem_cons]
        constructor
        · rintro ⟨hf, hd⟩
          exact ⟨Or.inr hf, hd⟩
        · rintro ⟨hf | hf, hd⟩
          · subst hf
            rcases hd with ⟨d', hd', hlt'⟩
            rw [hg] at hd'
            injection hd' with hd'
            subst hd'
            exact absurd hlt' hlt
          · exact ⟨hf, hd⟩

/-- C9: the gap subtraction of the decision engine is an unsigned machine
subtraction, so decide is total whenever the open frame's end is at most the
current time, and for an input whose open frame ends after the current time
the subtraction underflows and the call aborts (modelled as none): with frame
("A", 0, 5) and current time 3 the engine reaches the subtraction 3 - 5. -/
theorem C9_underflow :
    (∀ (timeout : Nat) (lf : Option Frame) (nm : String) (now : Nat),
        (∀ f, lf = some f → f.«end» ≤ now) → (decide timeout lf nm now).isSome = true) ∧
    decide TIMEOUT (some ⟨"A", 0, 5⟩) "A" 3 = none := by
  constructor
  · intro timeout lf nm now h
    cases lf with
    | none => rfl
    | some f =>
      have hf := h f rfl
      by_cases hn : f.name = nm
      · by_cases he : f.«end» = f.start
        · simp [decide, hn, he]
        · simp only [decide, checkedSub, hn, he, hf, if_true, if_false]
          split <;> rfl
      · simp [decide, hn]
  · decide

/-- C9 witness: with the frame ("A", 0, 3) and current time 100 the
precondition holds and decide returns an operation. -/
theorem C9_witness : (decide TIMEOUT (some ⟨"A", 0, 3⟩) "A" 100).isSome = true :=
  C9_underflow.1 TIMEOUT (some ⟨"A", 0, 3⟩) "A" 100
    (by intro f hf; injection hf with hf; subst hf; decide)

/-- C10: for every input, decide returns UpdatePrevious only when its
last_frame argument is some frame, so the unwrap of state.last_frame in the
UpdatePrevious branch of the main loop never sees none. -/
theorem C10_update_requires_frame (t : Nat) (lf : Option Frame) (nm : String)
    (now ts : Nat) (h : decide t lf nm now = some (.UpdatePrevious ts)) :
    lf.isSome = true := by
  cases lf with
  | some f => rfl
  | none => simp [decide] at h

/-- C10 witness: a concrete input on which decide returns UpdatePrevious,
whose last_frame is indeed some frame. -/
theorem C10_witness : (some (⟨"A", 0, 3⟩ : Frame)).isSome = true :=
  C10_update_requires_frame 10 (some ⟨"A", 0, 3⟩) "A" 5 5 (by decide)

end ScreenTime
